import Mathlib

/-!
Shallow embedding of the core JIT / dependency-manager machinery of the
sharded-array-for-python repository (file `src/jit/mlir.cpp`, plus the
creation front-ends in the same translation unit set), together with
theorems settling the specification claims.

Modelling conventions:
* MLIR machinery (builders, locations) carries no information relevant to
  the claims and is dropped; MLIR types and attributes are modelled by
  small inductive types mirroring exactly what the source constructs.
* `std::map`-style containers declared in the (absent) header
  `jit/mlir.hpp` are modelled as insertion-ordered association lists,
  following the spec's data-model section ("insertion order is preserved").
* Fallible C++ paths (`throw`, `assert`) are modelled with `Except`.
-/

namespace DDPT

/-- The dtype tags of the closed supported set (`DTypeId` in the C++
sources), plus the `DTYPE_LAST` sentinel seen in `Deferred.hpp`. -/
inductive DTypeId
  | FLOAT64 | FLOAT32
  | INT64 | INT32 | INT16 | INT8
  | UINT64 | UINT32 | UINT16 | UINT8
  | BOOL
  | DTYPE_LAST
deriving DecidableEq, Repr

/-- Signedness of an MLIR integer type. -/
inductive Signedness
  | signless | signed | unsigned
deriving DecidableEq, Repr

/-- Element types produced by the dtype switch in `getTType`
(`src/jit/mlir.cpp` lines 153-181).  The MLIR builder methods
`getI64Type`, `getIntegerType(16)`, `getI1Type`, ... all produce
signless integers. -/
inductive ElemType
  | f64 | f32
  | int (width : Nat) (sgn : Signedness)
deriving DecidableEq, Repr

/-- Error kinds of the error-handling taxonomy that the embedded code
paths can raise. -/
inductive JitError
  | UnknownDtype
  | MissingDependency
  | InvariantViolation
  | DeliveryMissingCallback
deriving DecidableEq, Repr

/-- A cut-down grammar of MLIR types, just rich enough for
`makeSignlessType` (`src/jit/mlir.cpp` lines 115-125): shaped types with
an element type, integer types with signedness, and everything else. -/
inductive MlirType
  | shaped (shape : List Int) (elem : MlirType)
  | int (width : Nat) (sgn : Signedness)
  | other
deriving DecidableEq, Repr

/-- `makeSignlessType` (`src/jit/mlir.cpp` lines 115-125): recurse into
shaped types, replace a non-signless integer by the signless integer of
the same width, leave anything else alone. -/
def makeSignlessType : MlirType → MlirType
  | .shaped shape elem => .shaped shape (makeSignlessType elem)
  | .int width sgn =>
      if sgn = .signless then .int width sgn else .int width .signless
  | t => t

/-- The dtype switch of `getTType` (`src/jit/mlir.cpp` lines 153-181):
maps a `DTypeId` to the MLIR element type, throwing "unknown dtype" on
anything outside the closed set. -/
def elemOfDType : DTypeId → Except JitError ElemType
  | .FLOAT64 => .ok .f64
  | .FLOAT32 => .ok .f32
  | .INT64 => .ok (.int 64 .signless)
  | .UINT64 => .ok (.int 64 .signless)
  | .INT32 => .ok (.int 32 .signless)
  | .UINT32 => .ok (.int 32 .signless)
  | .INT16 => .ok (.int 16 .signless)
  | .UINT16 => .ok (.int 16 .signless)
  | .INT8 => .ok (.int 8 .signless)
  | .UINT8 => .ok (.int 8 .signless)
  | .BOOL => .ok (.int 1 .signless)
  | .DTYPE_LAST => .error .UnknownDtype

/-- Environment attributes attached to PTensor types
(`imex::dist::DistEnvAttr` / `imex::region::GPUEnvAttr`), in the three
forms the source constructs them. -/
inductive EnvAttr
  | distEnvRank (team : Nat) (rank : Nat)
  | distEnvFull (team : Nat) (lOffs : List Nat)
      (lhShape ownShape rhShape : List Int)
  | gpuEnv (device : String)
deriving DecidableEq, Repr

/-- `mkEnvs` (`src/jit/mlir.cpp` lines 127-141): a dist environment when
`team` is non-zero, then a GPU environment when `device` is non-empty. -/
def mkEnvs (rank : Nat) (device : String) (team : Nat) : List EnvAttr :=
  (if team ≠ 0 then [EnvAttr.distEnvRank team rank] else []) ++
    (if device ≠ "" then [EnvAttr.gpuEnv device] else [])

/-- The `imex::ptensor::PTensorType` as the source builds it: a shape, an
element type, and the environment attributes. -/
structure PTensorType where
  shape : List Int
  elem : ElemType
  envs : List EnvAttr
deriving DecidableEq, Repr

/-- Whether an environment attribute is a `DistEnvAttr`. -/
def EnvAttr.isDistEnv : EnvAttr → Bool
  | .distEnvRank _ _ => true
  | .distEnvFull _ _ _ _ _ => true
  | .gpuEnv _ => false

/-- `imex::dist::isDist`: a PTensor type is distributed iff it carries a
`DistEnvAttr` environment. -/
def isDistT (t : PTensorType) : Bool :=
  t.envs.any EnvAttr.isDistEnv

/-- `PTensorType::getRank`: the length of the shape. -/
def ptRank (t : PTensorType) : Nat := t.shape.length

/-- `getTType` (`src/jit/mlir.cpp` lines 144-201): pick the element type
from the dtype, then build the PTensor type.  With a team: a distributed
type carrying local offsets and the halo/owned shapes (rank > 0), or a
0-rank distributed scalar; without a team: a local type over the owned
shape. -/
def getTType (dtype : DTypeId) (gShape lhShape ownShape rhShape : List Int)
    (device : String) (team : Nat) (lOffs : List Nat) :
    Except JitError PTensorType :=
  match elemOfDType dtype with
  | .error e => .error e
  | .ok etyp =>
    let rank := gShape.length
    let envs := mkEnvs rank device 0
    if team ≠ 0 then
      if rank ≠ 0 then
        .ok ⟨gShape, etyp,
          envs ++ [EnvAttr.distEnvFull team (lOffs.take rank)
                     lhShape ownShape rhShape]⟩
      else
        .ok ⟨[], etyp, envs ++ [EnvAttr.distEnvRank team 0]⟩
    else
      .ok ⟨ownShape, etyp, envs⟩

/-- An array-handle future together with the `DDPTensorImpl` data that
`getDependent` reads off it: dtype, global shape (its length is the
rank), optional halo shapes, local shape, local offsets, device and
team.  `argWords` models the flat memref-descriptor words that the
future's `add_to_args` appends for the native-code ABI (the
implementation lives outside the core sources). -/
structure Future where
  dtype : DTypeId
  shape : List Int
  lhShape : Option (List Int)
  localShape : List Int
  rhShape : Option (List Int)
  localOffsets : List Nat
  device : String
  team : Nat
  argWords : List Int
deriving DecidableEq, Repr

/-- The per-index halo-shape read in `getDependent`
(`src/jit/mlir.cpp` lines 213-217): `lh_shape() ? lh_shape()[i] : 0`. -/
def shapeVec (o : Option (List Int)) (rank : Nat) : List Int :=
  (List.range rank).map fun i =>
    match o with
    | some l => l.getD i 0
    | none => 0

/-- The owned-shape vector read in `getDependent`:
`ownShape[i] = local_shape()[i]`. -/
def ownVec (l : List Int) (rank : Nat) : List Int :=
  (List.range rank).map fun i => l.getD i 0

/-- The argument type `getDependent` synthesises for a future
(`src/jit/mlir.cpp` lines 210-222): shapes gathered from the impl, then
`getTType`. -/
def futureType (f : Future) : Except JitError PTensorType :=
  let rank := f.shape.length
  getTType f.dtype f.shape (shapeVec f.lhShape rank)
    (ownVec f.localShape rank) (shapeVec f.rhShape rank)
    f.device f.team f.localOffsets

/-- An MLIR value of the jit function body: its PTensor type plus a tag
distinguishing distinct values. -/
structure MValue where
  typ : PTensorType
  vid : Nat
deriving DecidableEq, Repr

/-- Association-list lookup by guid (insertion-ordered map model). -/
def lookupKey {β : Type} (g : Nat) : List (Nat × β) → Option β
  | [] => none
  | (k, v) :: t => if k = g then some v else lookupKey g t

/-- Association-list update: overwrite in place when the key is present,
append at the end otherwise (ordered-map `operator[]` assignment). -/
def setKey {β : Type} (g : Nat) (v : β) : List (Nat × β) → List (Nat × β)
  | [] => [(g, v)]
  | (k, w) :: t => if k = g then (k, v) :: t else (k, w) :: setKey g v t

/-- Association-list erase (`map::erase(key)`). -/
def eraseKey {β : Type} (g : Nat) : List (Nat × β) → List (Nat × β)
  | [] => []
  | (k, w) :: t => if k = g then eraseKey g t else (k, w) :: eraseKey g t

/-- Modelled from the spec: the process-wide Registry (declared in the
header `Registry.hpp`, which is not among the sources) is a map from
guids to array futures; `get` looks a guid up, `del` removes it. -/
def Registry := List (Nat × Future)

/-- The per-compilation dependency-manager state (`DepManager` in
`src/jit/mlir.cpp`): `ivm` guid→value for values living inside the
function body, `args` the imported inputs, `icm` guid→delivery callback
(callbacks are modelled by numeric ids), `icr` guid→ready callbacks,
and `funcArgs` the declared argument types of the jit function.
`nextVid` generates fresh value tags for synthesised block arguments.
The container iteration order is modelled as insertion order, following
the spec's data-model section (the concrete container lives in the
absent header `jit/mlir.hpp`). -/
structure DMState where
  ivm : List (Nat × MValue)
  args : List (Nat × Future)
  icm : List (Nat × Nat)
  icr : List (Nat × List Nat)
  funcArgs : List PTensorType
  nextVid : Nat
deriving DecidableEq, Repr

/-- The dependency manager of a freshly opened module: the jit function
has no arguments and nothing is recorded yet. -/
def initDM : DMState := ⟨[], [], [], [], [], 0⟩

/-- `DepManager::getDependent` (`src/jit/mlir.cpp` lines 203-231).
A guid found in `ivm` resolves to its recorded value with no state
change.  Otherwise the future is fetched from the Registry (failure:
`MissingDependency`), an argument type is synthesised via `getTType`,
the argument is inserted into the function signature at index
`args.size()`, the pair is appended to `args`, and the new argument
value is recorded in `ivm` and returned. -/
def getDependent (reg : Registry) (st : DMState) (guid : Nat) :
    Except JitError (MValue × DMState) :=
  match lookupKey guid st.ivm with
  | some v => .ok (v, st)
  | none =>
    match lookupKey guid reg with
    | none => .error .MissingDependency
    | some fut =>
      match futureType fut with
      | .error e => .error e
      | .ok typ =>
        .ok (⟨typ, st.nextVid⟩,
          { st with
            funcArgs := st.funcArgs.insertIdx st.args.length typ
            args := st.args ++ [(guid, fut)]
            ivm := setKey guid ⟨typ, st.nextVid⟩ st.ivm
            nextVid := st.nextVid + 1 })

/-- `DepManager::addVal` (`src/jit/mlir.cpp` lines 243-247).  The
`assert(_ivm.find(guid) == _ivm.end())` precondition is modelled as an
`InvariantViolation`; on success the value and the delivery callback
are recorded. -/
def addVal (st : DMState) (guid : Nat) (val : MValue) (cb : Nat) :
    Except JitError DMState :=
  match lookupKey guid st.ivm with
  | some _ => .error .InvariantViolation
  | none =>
    .ok { st with ivm := setKey guid val st.ivm, icm := setKey guid cb st.icm }

/-- `DepManager::addReady` (`src/jit/mlir.cpp` lines 249-251):
`_icr[guid].emplace_back(cb)`. -/
def addReady (st : DMState) (guid : Nat) (cb : Nat) : DMState :=
  { st with
    icr := setKey guid ((lookupKey guid st.icr).getD [] ++ [cb]) st.icr }

/-- `DepManager::drop` (`src/jit/mlir.cpp` lines 253-259): erase the
guid from `ivm`, `icm` and `icr`, and delete it from the Registry. -/
def drop (reg : Registry) (st : DMState) (guid : Nat) : DMState × Registry :=
  ({ st with
      ivm := eraseKey guid st.ivm
      icm := eraseKey guid st.icm
      icr := eraseKey guid st.icr },
   eraseKey guid reg)

/-- The loop of `DepManager::store_inputs` (`src/jit/mlir.cpp` lines
233-241): for each `(guid, future)` in `args`, the future appends its
descriptor words (`add_to_args`) and its `ivm`/`icm` entries are erased
(inputs need no delivery). -/
def storeInputsLoop : List (Nat × Future) → List Int →
    List (Nat × MValue) → List (Nat × Nat) →
    List Int × List (Nat × MValue) × List (Nat × Nat)
  | [], res, ivm, icm => (res, ivm, icm)
  | a :: t, res, ivm, icm =>
      storeInputsLoop t (res ++ a.2.argWords) (eraseKey a.1 ivm)
        (eraseKey a.1 icm)

/-- `DepManager::store_inputs`: the flat input-word list plus the state
with argument entries cleared from `ivm` and `icm`. -/
def store_inputs (st : DMState) : List Int × DMState :=
  let r := storeInputsLoop st.args [] st.ivm st.icm
  (r.1, { st with ivm := r.2.1, icm := r.2.2 })

/-- `memref_sz` — size of a flattened standard memref descriptor of the
given rank, in `intptr_t` words: `[allocated, aligned, offset,
sizes[rank], strides[rank]]`, hence `3 + 2*rank` (defined inline in the
sources: `static inline uint64_t memref_sz(int rank)`). -/
def memref_sz (rank : Nat) : Nat := 3 + 2 * rank

/-- Modelled from the spec: `ptensor_sz` is declared in the header
`jit/mlir.hpp`, which is not among the sources.  Per the spec's memref
decoding section it accounts exactly for what the function returns per
result: three memrefs (left halo, local data, right halo) plus a rank-1
local-offsets memref for a distributed non-0-rank array, and a single
memref otherwise.  The condition mirrors the `rank > 0 && isDist` test
of `DepManager::deliver`. -/
def ptensor_sz (rank : Nat) (isDist : Bool) : Nat :=
  if 0 < rank ∧ isDist = true then 3 * memref_sz rank + memref_sz 1
  else memref_sz rank

/-- The loop of `DepManager::handleResult` (`src/jit/mlir.cpp` lines
276-290), walking `ivm` in order: collect the return values, insert
each value's type into the signature at the running result index,
record `(rank, isDist)` in `irm`, and accumulate
`ptensor_sz(rank, isDist)`. -/
def hrLoop : List (Nat × MValue) →
    List MValue × List PTensorType × List (Nat × Nat × Bool) × Nat
  | [] => ([], [], [], 0)
  | (g, v) :: t =>
      let r := hrLoop t
      let rank := ptRank v.typ
      let d := isDistT v.typ
      (v :: r.1, v.typ :: r.2.1, (g, rank, d) :: r.2.2.1,
        ptensor_sz rank d + r.2.2.2)

/-- The outcome of `DepManager::handleResult` (`src/jit/mlir.cpp` lines
266-315): return values, result types of the rewritten signature, the
`irm` map, and the reported output-buffer size `2 * sz`. -/
structure HRes where
  retValues : List MValue
  resultTypes : List PTensorType
  irm : List (Nat × Nat × Bool)
  size2 : Nat
deriving DecidableEq, Repr

/-- `DepManager::handleResult`: run the loop over `ivm` and report
twice the accumulated word total. -/
def handleResult (ivm : List (Nat × MValue)) : HRes :=
  let r := hrLoop ivm
  ⟨r.1, r.2.1, r.2.2.1, 2 * r.2.2.2⟩

/-- A decoded flat memref descriptor, as read by the `getMR` lambda of
`DepManager::deliver` (`src/jit/mlir.cpp` lines 321-329):
`allocated = buff[0]`, `aligned = buff[1]`, `offset = buff[2]`, sizes at
`buff[3..]`, strides at `buff[3+rank..]`. -/
structure MemrefDesc where
  allocated : Int
  aligned : Int
  offset : Int
  sizes : List Int
  strides : List Int
deriving DecidableEq, Repr

/-- The `getMR` decoding at a word buffer. -/
def getMR (rank : Nat) (buff : List Int) : MemrefDesc :=
  ⟨buff.getD 0 0, buff.getD 1 0, buff.getD 2 0,
    (buff.drop 3).take rank, (buff.drop (3 + rank)).take rank⟩

/-- What `deliver` passes to a delivery callback: for a distributed
non-0-rank result, the three memrefs plus the local-offsets words; for
a 0d or non-distributed result, the single data memref (halo and
local-offset arguments are null). -/
inductive Payload
  | distArr (lhs ldata rhs : MemrefDesc) (loAllocated loAlignedOff : Int)
  | localArr (ldata : MemrefDesc)
deriving DecidableEq, Repr

/-- One delivery-callback invocation recorded by the `deliver` loop:
the guid, the callback id, the `(rank, isDist)` pair read from `irm`,
the buffer position the decoding started at, and the decoded payload. -/
structure DeliveryEvent where
  guid : Nat
  cb : Nat
  rank : Nat
  isDist : Bool
  startPos : Nat
  payload : Payload
deriving DecidableEq, Repr

/-- `_irm[guid]` with `std::map::operator[]` default-construction on a
missing key. -/
def irmLookup (irm : List (Nat × Nat × Bool)) (g : Nat) : Nat × Bool :=
  (lookupKey g irm).getD (0, false)

/-- The per-result body of the `DepManager::deliver` loop
(`src/jit/mlir.cpp` lines 336-375): read `(rank, isDist)` from `irm`;
for a distributed non-0-rank result decode three rank-`R` memrefs (left
halo, local data, right halo) and then the first three words of the
rank-1 local-offsets memref, skipping `memref_sz(1)` words for it; for
a 0d or non-distributed result decode a single rank-`R` memref.
Returns the callback invocation and the next buffer position. -/
def deliverStep (irm : List (Nat × Nat × Bool)) (output : List Int)
    (g cb pos : Nat) : DeliveryEvent × Nat :=
  let rd := irmLookup irm g
  if 0 < rd.1 ∧ rd.2 = true then
    (⟨g, cb, rd.1, rd.2, pos,
      .distArr (getMR rd.1 (output.drop pos))
        (getMR rd.1 (output.drop (pos + memref_sz rd.1)))
        (getMR rd.1 (output.drop (pos + 2 * memref_sz rd.1)))
        ((output.drop (pos + 3 * memref_sz rd.1)).getD 0 0)
        ((output.drop (pos + 3 * memref_sz rd.1)).getD 1 0 +
          (output.drop (pos + 3 * memref_sz rd.1)).getD 2 0)⟩,
     pos + 3 * memref_sz rd.1 + memref_sz 1)
  else
    (⟨g, cb, rd.1, rd.2, pos, .localArr (getMR rd.1 (output.drop pos))⟩,
     pos + memref_sz rd.1)

/-- The loop of `DepManager::deliver` (`src/jit/mlir.cpp` lines
332-379), walking `ivm` in order with a running buffer position.  A
guid without a delivery callback hits `assert(false)`. -/
def deliverLoop (icm : List (Nat × Nat)) (irm : List (Nat × Nat × Bool))
    (output : List Int) :
    List (Nat × MValue) → Nat → Except JitError (List DeliveryEvent)
  | [], _ => .ok []
  | (g, _) :: t, pos =>
    match lookupKey g icm with
    | none => .error .DeliveryMissingCallback
    | some cb =>
      match deliverLoop icm irm output t (deliverStep irm output g cb pos).2 with
      | .error e => .error e
      | .ok rest => .ok ((deliverStep irm output g cb pos).1 :: rest)

/-- `DepManager::deliver` (`src/jit/mlir.cpp` lines 317-388): walk `ivm`
from position 0, then fire every ready callback in `icr` with its guid
as payload. -/
def deliver (st : DMState) (irm : List (Nat × Nat × Bool))
    (output : List Int) :
    Except JitError (List DeliveryEvent × List (Nat × Nat)) :=
  match deliverLoop st.icm irm output st.ivm 0 with
  | .error e => .error e
  | .ok evs =>
      .ok (evs,
        st.icr.foldr (fun p acc => p.2.map (fun cb => (cb, p.1)) ++ acc) [])

/-- The process-lifetime JIT engine cache of `JIT::run`
(`src/jit/mlir.cpp` lines 418-437): a mapping from sha1 digests of the
module text to execution engines.  Digests are abstracted to `Nat` keys
and engines to numeric ids; `nextEngine` hands out the id the next
`createExecutionEngine` call would produce. -/
structure JitCache where
  entries : List (Nat × Nat)
  nextEngine : Nat
deriving DecidableEq, Repr

/-- The cached path of `JIT::run` (`src/jit/mlir.cpp` lines 418-437),
parameterised over the (external) sha1 digest function.  The key is the
digest of the module's textual form as printed at this point — i.e.
before `createExecutionEngine` runs the lowering pass pipeline.  A hit
reuses the stored engine; a miss calls `createExecutionEngine` and
stores the new engine.  Entries are never removed.  The returned `Bool`
records whether `createExecutionEngine` was called. -/
def jitRunCached (sha1 : String → Nat) (cache : JitCache)
    (preLoweringText : String) : JitCache × Nat × Bool :=
  let cksm := sha1 preLoweringText
  match lookupKey cksm cache.entries with
  | some e => (cache, e, false)
  | none =>
      (⟨cache.entries ++ [(cksm, cache.nextEngine)], cache.nextEngine + 1⟩,
        cache.nextEngine, true)

/-- Well-formedness of the engine cache: engine ids are below the fresh
counter and no engine id is stored twice (every id was handed out by a
distinct `createExecutionEngine` call). -/
def cacheWF (c : JitCache) : Prop :=
  (∀ p ∈ c.entries, p.2 < c.nextEngine) ∧ (c.entries.map Prod.snd).Nodup

/-- A slot of the packed argument vector of `JIT::run`
(`src/jit/mlir.cpp` lines 454-466): the address of the output-buffer
pointer, or the address of the `i`-th input-pointer storage slot. -/
inductive ArgSlot
  | outPtr
  | inSlot (idx : Nat)
deriving DecidableEq, Repr

/-- The input part of the packed argument vector: one slot address per
element of `inp`, in order (`for (auto &arg : inp) args.push_back(&arg)`). -/
def packInputs : Nat → List Int → List ArgSlot
  | _, [] => []
  | i, _ :: t => .inSlot i :: packInputs (i + 1) t

/-- The packed argument vector of `JIT::run`: the output-buffer-pointer
address first — only when `osz` is non-zero — then the input slots. -/
def jitRunArgs (osz : Nat) (inp : List Int) : List ArgSlot :=
  (if osz ≠ 0 then [ArgSlot.outPtr] else []) ++ packInputs 0 inp

/-- The output buffer `JIT::run` allocates and returns:
`std::vector<intptr_t> out(osz)`. -/
def jitRunOut (osz : Nat) : List Int := List.replicate osz 0

/-- `mkTeam` (creation front-ends): the team actually stored in a
deferred creation node is 1 when a team was requested and the
transceiver spans more than one rank, and 0 otherwise.  The transceiver
(an external collaborator) is represented by its rank count. -/
def mkTeam (nranks : Nat) (team : Nat) : Nat :=
  if team ≠ 0 ∧ 1 < nranks then 1 else 0

/-- Modelled from the spec: the `Deferred` base class storing the
node's team is declared in a header whose in-tree copy predates the
team field; the constructor calls in the creation front-ends
(`Deferred(dtype, rank, team, balanced)`) fix the stored fields. -/
structure DeferredNode where
  dtype : DTypeId
  rank : Nat
  team : Nat
  balanced : Bool
deriving DecidableEq, Repr

/-- `Creator::full`: defers a `DeferredFull(shape, val, dtype,
mkTeam(team))` node of rank `shape.size()`. -/
def Creator.full (nranks : Nat) (shape : List Nat) (dtype : DTypeId)
    (team : Nat) : DeferredNode :=
  ⟨dtype, shape.length, mkTeam nranks team, true⟩

/-- `Creator.arange`: defers a rank-1 `DeferredArange(start, end, step,
dtype, mkTeam(team))` node. -/
def Creator.arange (nranks : Nat) (_start _stop _step : Nat)
    (dtype : DTypeId) (team : Nat) : DeferredNode :=
  ⟨dtype, 1, mkTeam nranks team, true⟩

/-- `Creator.linspace`: defers a rank-1 `DeferredLinspace(start, end,
num, endpoint, dtype, mkTeam(team))` node. -/
def Creator.linspace (nranks : Nat) (_num : Nat) (_endpoint : Bool)
    (dtype : DTypeId) (team : Nat) : DeferredNode :=
  ⟨dtype, 1, mkTeam nranks team, true⟩

/-- The dependency-manager operations a batch can perform while nodes
emit into the function body. -/
inductive DMOp
  | getDep (guid : Nat)
  | addV (guid : Nat) (val : MValue) (cb : Nat)
  | addR (guid : Nat) (cb : Nat)
  | drp (guid : Nat)
deriving DecidableEq, Repr

/-- One dependency-manager step. -/
def runOp (st : DMState) (reg : Registry) :
    DMOp → Except JitError (DMState × Registry)
  | .getDep g =>
      match getDependent reg st g with
      | .error e => .error e
      | .ok r => .ok (r.2, reg)
  | .addV g v cb =>
      match addVal st g v cb with
      | .error e => .error e
      | .ok st' => .ok (st', reg)
  | .addR g cb => .ok (addReady st g cb, reg)
  | .drp g => .ok (drop reg st g)

/-- A sequence of dependency-manager steps. -/
def runOps (st : DMState) (reg : Registry) :
    List DMOp → Except JitError (DMState × Registry)
  | [] => .ok (st, reg)
  | o :: t =>
      match runOp st reg o with
      | .error e => .error e
      | .ok r => runOps r.1 r.2 t

/-- Whether an element type is free of signed/unsigned integers (every
integer is signless). -/
def ElemType.isSignlessB : ElemType → Bool
  | .int _ sgn => sgn = Signedness.signless
  | _ => true

/-- Whether an MLIR type (makeSignlessType grammar) contains no
signed/unsigned integer anywhere. -/
def MlirType.isSignlessB : MlirType → Bool
  | .shaped _ elem => elem.isSignlessB
  | .int _ sgn => sgn = Signedness.signless
  | .other => true

/-- The i-th declared argument of the jit function is exactly the type
synthesised for the i-th entry of `args`: the declared-argument order
equals the insertion order into `args`. -/
def argsOK (st : DMState) : Prop :=
  st.args.map (fun a => futureType a.2) = st.funcArgs.map Except.ok

/-! Association-list helper lemmas. -/

theorem lookupKey_setKey_self {β : Type} (g : Nat) (v : β) :
    ∀ l : List (Nat × β), lookupKey g (setKey g v l) = some v := by
  intro l
  induction l with
  | nil => simp [setKey, lookupKey]
  | cons p t ih =>
      by_cases h : p.1 = g
      · simp [setKey, lookupKey, h]
      · simpa [setKey, lookupKey, h] using ih

theorem lookupKey_setKey_ne {β : Type} {g g' : Nat} (v : β)
    (hne : g' ≠ g) :
    ∀ l : List (Nat × β), lookupKey g' (setKey g v l) = lookupKey g' l := by
  intro l
  induction l with
  | nil => simp [setKey, lookupKey, Ne.symm hne]
  | cons p t ih =>
      obtain ⟨k, w⟩ := p
      by_cases h : k = g
      · subst h
        simp [setKey, lookupKey, Ne.symm hne]
      · by_cases h' : k = g'
        · subst h'
          simp [setKey, lookupKey, h]
        · simp [setKey, lookupKey, h, h', ih]

theorem setKey_of_lookup_none {β : Type} {g : Nat} (v : β) :
    ∀ {l : List (Nat × β)}, lookupKey g l = none → setKey g v l = l ++ [(g, v)] := by
  intro l
  induction l with
  | nil => intro _; simp [setKey]
  | cons p t ih =>
      intro h
      by_cases hp : p.1 = g
      · simp [lookupKey, hp] at h
      · simp [lookupKey, hp] at h
        simp [setKey, hp, ih h]

theorem lookupKey_eraseKey_self {β : Type} (g : Nat) :
    ∀ l : List (Nat × β), lookupKey g (eraseKey g l) = none := by
  intro l
  induction l with
  | nil => simp [eraseKey, lookupKey]
  | cons p t ih =>
      obtain ⟨k, w⟩ := p
      by_cases h : k = g
      · simpa [eraseKey, h] using ih
      · simpa [eraseKey, lookupKey, h] using ih

theorem lookupKey_eraseKey_ne {β : Type} {g g' : Nat} (hne : g' ≠ g) :
    ∀ l : List (Nat × β), lookupKey g' (eraseKey g l) = lookupKey g' l := by
  intro l
  induction l with
  | nil => simp [eraseKey, lookupKey]
  | cons p t ih =>
      obtain ⟨k, w⟩ := p
      by_cases h : k = g
      · subst h
        simpa [eraseKey, lookupKey, Ne.symm hne] using ih
      · by_cases h' : k = g'
        · subst h'
          simp [eraseKey, lookupKey, h]
        · simp [eraseKey, lookupKey, h, h', ih]

theorem lookupKey_mem {β : Type} {g : Nat} {v : β} :
    ∀ {l : List (Nat × β)}, lookupKey g l = some v → (g, v) ∈ l := by
  intro l
  induction l with
  | nil => intro h; simp [lookupKey] at h
  | cons p t ih =>
      intro h
      by_cases hp : p.1 = g
      · simp [lookupKey, hp] at h
        subst h
        exact (by rw [← hp]; exact List.mem_cons_self p t)
      · simp [lookupKey, hp] at h
        exact List.mem_cons_of_mem p (ih h)

theorem lookupKey_map_of_mem {β γ : Type} (f : Nat × β → γ) :
    ∀ {l : List (Nat × β)} {g : Nat} {v : β},
      (l.map Prod.fst).Nodup → (g, v) ∈ l →
      lookupKey g (l.map fun p => (p.1, f p)) = some (f (g, v)) := by
  intro l
  induction l with
  | nil => intro g v _ hm; simp at hm
  | cons p t ih =>
      intro g v hnd hm
      have hnd' : (t.map Prod.fst).Nodup := (List.nodup_cons.mp hnd).2
      rcases List.mem_cons.mp hm with h | h
      · subst h
        simp [lookupKey]
      · have hp : p.1 ≠ g := by
          intro he
          exact (List.nodup_cons.mp hnd).1
            (he ▸ List.mem_map_of_mem Prod.fst h)
        simp [lookupKey, hp]
        exact ih hnd' h

theorem lookupKey_values_ne {β : Type} [DecidableEq β] :
    ∀ {l : List (Nat × β)} {k1 k2 : Nat} {v1 v2 : β},
      (l.map Prod.snd).Nodup → (k1, v1) ∈ l → (k2, v2) ∈ l → k1 ≠ k2 →
      v1 ≠ v2 := by
  intro l
  induction l with
  | nil => intro k1 k2 v1 v2 _ h1; simp at h1
  | cons p t ih =>
      intro k1 k2 v1 v2 hnd h1 h2 hk
      have hh := List.nodup_cons.mp hnd
      rcases List.mem_cons.mp h1 with e1 | e1 <;>
        rcases List.mem_cons.mp h2 with e2 | e2
      · exact absurd (congrArg Prod.fst (e1.trans e2.symm)) hk
      · intro hv
        apply hh.1
        have hp2 : p.2 = v2 := (congrArg Prod.snd e1).symm.trans hv
        exact hp2 ▸ List.mem_map_of_mem Prod.snd e2
      · intro hv
        apply hh.1
        have hp2 : p.2 = v1 := (congrArg Prod.snd e2).symm.trans hv.symm
        exact hp2 ▸ List.mem_map_of_mem Prod.snd e1
      · exact ih hh.2 e1 e2 hk

/-! Lemmas about the `handleResult` and `deliver` loops. -/

theorem hrLoop_spec (l : List (Nat × MValue)) :
    hrLoop l =
      (l.map Prod.snd,
       l.map fun p => p.2.typ,
       l.map (fun p => (p.1, ptRank p.2.typ, isDistT p.2.typ)),
       (l.map fun p => ptensor_sz (ptRank p.2.typ) (isDistT p.2.typ)).sum) := by
  induction l with
  | nil => rfl
  | cons p t ih => simp [hrLoop, ih]

theorem handleResult_irm (ivm : List (Nat × MValue)) :
    (handleResult ivm).irm =
      ivm.map fun p => (p.1, ptRank p.2.typ, isDistT p.2.typ) := by
  simp [handleResult, hrLoop_spec]

theorem handleResult_irm_lookup {ivm : List (Nat × MValue)}
    (hnd : (ivm.map Prod.fst).Nodup) {g : Nat} {v : MValue}
    (hm : (g, v) ∈ ivm) :
    irmLookup (handleResult ivm).irm g =
      (ptRank v.typ, isDistT v.typ) := by
  rw [irmLookup, handleResult_irm,
    lookupKey_map_of_mem (fun p => (ptRank p.2.typ, isDistT p.2.typ)) hnd hm]
  rfl

theorem deliverStep_fields (irm : List (Nat × Nat × Bool))
    (output : List Int) (g cb pos : Nat) :
    (deliverStep irm output g cb pos).1.guid = g ∧
    (deliverStep irm output g cb pos).1.cb = cb ∧
    (deliverStep irm output g cb pos).1.rank = (irmLookup irm g).1 ∧
    (deliverStep irm output g cb pos).1.isDist = (irmLookup irm g).2 ∧
    (deliverStep irm output g cb pos).1.startPos = pos := by
  by_cases h : 0 < (irmLookup irm g).1 ∧ (irmLookup irm g).2 = true <;>
    simp [deliverStep, h]

theorem deliverStep_next (irm : List (Nat × Nat × Bool))
    (output : List Int) (g cb pos : Nat) :
    (deliverStep irm output g cb pos).2 =
      pos + ptensor_sz (irmLookup irm g).1 (irmLookup irm g).2 := by
  by_cases h : 0 < (irmLookup irm g).1 ∧ (irmLookup irm g).2 = true
  · simp only [deliverStep, ptensor_sz, if_pos h]
    ring
  · simp only [deliverStep, ptensor_sz, if_neg h]

theorem deliverLoop_ok (icm : List (Nat × Nat))
    (irm : List (Nat × Nat × Bool)) (output : List Int) :
    ∀ (l : List (Nat × MValue)) (pos : Nat),
      (∀ g ∈ l.map Prod.fst, (lookupKey g icm).isSome) →
      ∃ evs, deliverLoop icm irm output l pos = .ok evs ∧
        evs.map (fun e => (e.guid, e.rank, e.isDist)) =
          l.map fun p => (p.1, irmLookup irm p.1) := by
  intro l
  induction l with
  | nil => intro pos _; exact ⟨[], rfl, rfl⟩
  | cons p t ih =>
      intro pos hcov
      obtain ⟨g, v⟩ := p
      have hg : (lookupKey g icm).isSome := hcov g (by simp)
      obtain ⟨cb, hcb⟩ := Option.isSome_iff_exists.mp hg
      have hcov' : ∀ g' ∈ t.map Prod.fst, (lookupKey g' icm).isSome := by
        intro g' hg'
        exact hcov g' (by simp [hg'])
      obtain ⟨rest, hrest, hmap⟩ := ih (deliverStep irm output g cb pos).2 hcov'
      refine ⟨(deliverStep irm output g cb pos).1 :: rest, ?_, ?_⟩
      · simp only [deliverLoop, hcb, hrest]
      · obtain ⟨h1, _, h3, h4, _⟩ := deliverStep_fields irm output g cb pos
        simp [h1, h3, h4, hmap]

theorem deliverLoop_startPos (icm : List (Nat × Nat))
    (irm : List (Nat × Nat × Bool)) (output : List Int) :
    ∀ (l : List (Nat × MValue)) (pos : Nat) (evs : List DeliveryEvent),
      deliverLoop icm irm output l pos = .ok evs →
      ∀ i e, evs.get? i = some e →
        e.startPos =
          pos + ((evs.take i).map fun x => ptensor_sz x.rank x.isDist).sum := by
  intro l
  induction l with
  | nil =>
      intro pos evs hok i e hget
      simp only [deliverLoop, Except.ok.injEq] at hok
      subst hok
      simp at hget
  | cons p t ih =>
      intro pos evs hok i e hget
      obtain ⟨g, v⟩ := p
      rcases hcb : lookupKey g icm with _ | cb
      · simp [deliverLoop, hcb] at hok
      simp only [deliverLoop, hcb] at hok
      rcases hrec : deliverLoop icm irm output t (deliverStep irm output g cb pos).2
        with _ | rest
      · rw [hrec] at hok; exact absurd hok (by simp)
      · rw [hrec] at hok
        simp only [Except.ok.injEq] at hok
        subst hok
        obtain ⟨_, _, h3, h4, h5⟩ := deliverStep_fields irm output g cb pos
        match i, hget with
        | 0, hget =>
            simp only [List.get?_cons_zero, Option.some.injEq] at hget
            subst hget
            simp [h5]
        | Nat.succ j, hget =>
            simp only [List.get?_cons_succ] at hget
            have hstep := ih _ rest hrec j e hget
            rw [deliverStep_next] at hstep
            rw [hstep, List.take_succ_cons]
            simp [h3, h4]
            ring

/-! The argument/signature correspondence invariant. -/

theorem argsOK_init : argsOK initDM := rfl

theorem argsOK_length {st : DMState} (h : argsOK st) :
    st.args.length = st.funcArgs.length := by
  have := congrArg List.length h
  simpa using this

/-- Specification of `getDependent` in the found-in-`ivm` case: the
recorded value is returned and nothing changes. -/
theorem getDependent_mem_spec (reg : Registry) (st : DMState) {guid : Nat}
    {v : MValue} (h : lookupKey guid st.ivm = some v) :
    getDependent reg st guid = .ok (v, st) := by
  simp [getDependent, h]

/-- Specification of `getDependent` in the import case: one argument is
inserted into the signature at index `args.size()`, one pair is
appended to `args`, and the fresh argument value is recorded in `ivm`
and returned. -/
theorem getDependent_new_spec (reg : Registry) (st : DMState) {guid : Nat}
    {fut : Future} {typ : PTensorType}
    (hivm : lookupKey guid st.ivm = none)
    (hreg : lookupKey guid reg = some fut)
    (htyp : futureType fut = .ok typ) :
    getDependent reg st guid =
      .ok (⟨typ, st.nextVid⟩,
        { st with
          funcArgs := st.funcArgs.insertIdx st.args.length typ
          args := st.args ++ [(guid, fut)]
          ivm := st.ivm ++ [(guid, ⟨typ, st.nextVid⟩)]
          nextVid := st.nextVid + 1 }) := by
  simp [getDependent, hivm, hreg, htyp, setKey_of_lookup_none _ hivm]

/-- Specification of `getDependent` when the guid is unknown to both
`ivm` and the Registry. -/
theorem getDependent_missing_spec (reg : Registry) (st : DMState) {guid : Nat}
    (hivm : lookupKey guid st.ivm = none)
    (hreg : lookupKey guid reg = none) :
    getDependent reg st guid = .error .MissingDependency := by
  simp [getDependent, hivm, hreg]

/-- Specification of `getDependent` when the type synthesis fails (an
unknown dtype tag propagates out). -/
theorem getDependent_typErr_spec (reg : Registry) (st : DMState) {guid : Nat}
    {fut : Future} {e : JitError}
    (hivm : lookupKey guid st.ivm = none)
    (hreg : lookupKey guid reg = some fut)
    (htyp : futureType fut = .error e) :
    getDependent reg st guid = .error e := by
  simp [getDependent, hivm, hreg, htyp]

theorem argsOK_getDependent {reg : Registry} {st : DMState} {guid : Nat}
    {r : MValue × DMState} (hok : argsOK st)
    (h : getDependent reg st guid = .ok r) : argsOK r.2 := by
  rcases hivm : lookupKey guid st.ivm with _ | v
  · rcases hreg : lookupKey guid reg with _ | fut
    · rw [getDependent_missing_spec reg st hivm hreg] at h
      simp at h
    · rcases htyp : futureType fut with e | typ
      · rw [getDependent_typErr_spec reg st hivm hreg htyp] at h
        simp at h
      · rw [getDependent_new_spec reg st hivm hreg htyp] at h
        injection h with h
        subst h
        unfold argsOK at hok ⊢
        have hlen : st.args.length = st.funcArgs.length := by
          have := congrArg List.length hok
          simpa using this
        simp only [hlen, List.insertIdx_length_self]
        simp [hok, htyp]
  · rw [getDependent_mem_spec reg st hivm] at h
    injection h with h
    subst h
    exact hok

theorem argsOK_runOp {st : DMState} {reg : Registry} {o : DMOp}
    {r : DMState × Registry} (hok : argsOK st)
    (h : runOp st reg o = .ok r) : argsOK r.1 := by
  cases o with
  | getDep g =>
      simp only [runOp] at h
      rcases hd : getDependent reg st g with e | v
      · rw [hd] at h; simp at h
      · rw [hd] at h
        injection h with h
        subst h
        exact argsOK_getDependent hok hd
  | addV g v cb =>
      simp only [runOp] at h
      rcases hl : addVal st g v cb with e | st'
      · rw [hl] at h; simp at h
      · rw [hl] at h
        injection h with h
        subst h
        simp only [addVal] at hl
        rcases hk : lookupKey g st.ivm with _ | w
        · rw [hk] at hl
          injection hl with hl
          subst hl
          exact hok
        · rw [hk] at hl; simp at hl
  | addR g cb =>
      simp only [runOp] at h
      injection h with h
      subst h
      exact hok
  | drp g =>
      simp only [runOp] at h
      injection h with h
      subst h
      exact hok

theorem argsOK_runOps {st : DMState} {reg : Registry} :
    ∀ {ops : List DMOp} {r : DMState × Registry}, argsOK st →
      runOps st reg ops = .ok r → argsOK r.1 := by
  intro ops
  induction ops generalizing st reg with
  | nil =>
      intro r hok h
      simp only [runOps] at h
      injection h with h
      subst h
      exact hok
  | cons o t ih =>
      intro r hok h
      simp only [runOps] at h
      rcases hstep : runOp st reg o with e | s
      · rw [hstep] at h; simp at h
      · rw [hstep] at h
        exact ih (argsOK_runOp hok hstep) h

/-! Lemmas about the engine cache and the packed invocation. -/

theorem lookupKey_append_of_none {β : Type} {g : Nat} {l : List (Nat × β)}
    (h : lookupKey g l = none) (l' : List (Nat × β)) :
    lookupKey g (l ++ l') = lookupKey g l' := by
  induction l with
  | nil => rfl
  | cons p t ih =>
      obtain ⟨k, w⟩ := p
      by_cases hk : k = g
      · simp [lookupKey, hk] at h
      · have h' : lookupKey g t = none := by simpa [lookupKey, hk] using h
        simpa [lookupKey, hk] using ih h'

theorem jitRunCached_hit {sha1 : String → Nat} {c : JitCache} {t : String}
    {e0 : Nat} (h : lookupKey (sha1 t) c.entries = some e0) :
    jitRunCached sha1 c t = (c, e0, false) := by
  simp [jitRunCached, h]

theorem jitRunCached_miss {sha1 : String → Nat} {c : JitCache} {t : String}
    (h : lookupKey (sha1 t) c.entries = none) :
    jitRunCached sha1 c t =
      (⟨c.entries ++ [(sha1 t, c.nextEngine)], c.nextEngine + 1⟩,
        c.nextEngine, true) := by
  simp [jitRunCached, h]

theorem jitRunCached_lookup_after (sha1 : String → Nat) (c : JitCache)
    (t : String) :
    lookupKey (sha1 t) (jitRunCached sha1 c t).1.entries =
      some (jitRunCached sha1 c t).2.1 := by
  rcases h : lookupKey (sha1 t) c.entries with _ | e0
  · rw [jitRunCached_miss h]
    simpa using (lookupKey_append_of_none h [(sha1 t, c.nextEngine)]).trans
      (by simp [lookupKey])
  · rw [jitRunCached_hit h]
    exact h

theorem jitRunCached_monotone (sha1 : String → Nat) (c : JitCache)
    (t : String) :
    ∀ p ∈ c.entries, p ∈ (jitRunCached sha1 c t).1.entries := by
  intro p hp
  rcases h : lookupKey (sha1 t) c.entries with _ | e0
  · rw [jitRunCached_miss h]
    exact List.mem_append_left _ hp
  · rw [jitRunCached_hit h]
    exact hp

theorem cacheWF_preserved {sha1 : String → Nat} {c : JitCache} (t : String)
    (hwf : cacheWF c) : cacheWF (jitRunCached sha1 c t).1 := by
  rcases h : lookupKey (sha1 t) c.entries with _ | e0
  · rw [jitRunCached_miss h]
    obtain ⟨hlt, hnd⟩ := hwf
    constructor
    · intro p hp
      rcases List.mem_append.mp hp with hp | hp
      · exact Nat.lt_trans (hlt p hp) (Nat.lt_succ_self _)
      · have hpe : p = (sha1 t, c.nextEngine) := by simpa using hp
        rw [hpe]
        exact Nat.lt_succ_self _
    · simp only [List.map_append, List.map_cons, List.map_nil]
      rw [List.nodup_append]
      refine ⟨hnd, List.nodup_singleton _, ?_⟩
      intro a ha hb
      obtain ⟨p, hp, hpa⟩ := List.mem_map.mp ha
      have halt : a < c.nextEngine := hpa ▸ hlt p hp
      have hbe : a = c.nextEngine := by simpa using hb
      exact absurd hbe (Nat.ne_of_lt halt)
  · rw [jitRunCached_hit h]
    exact hwf

theorem jitRunCached_fresh {sha1 : String → Nat} {c : JitCache} {t : String}
    (hwf : cacheWF c) (h : lookupKey (sha1 t) c.entries = none) :
    (jitRunCached sha1 c t).2.1 ∉ c.entries.map Prod.snd := by
  rw [jitRunCached_miss h]
  intro hmem
  obtain ⟨p, hp, hpe⟩ := List.mem_map.mp hmem
  exact absurd hpe (Nat.ne_of_lt (hwf.1 p hp))

theorem packInputs_eq : ∀ (l : List Int) (i : Nat),
    packInputs i l = (List.range l.length).map fun j => ArgSlot.inSlot (i + j) := by
  intro l
  induction l with
  | nil => intro i; rfl
  | cons x t ih =>
      intro i
      simp only [packInputs, List.length_cons, List.range_succ_eq_map,
        List.map_cons, List.map_map, Nat.add_zero]
      refine congrArg₂ List.cons rfl ?_
      rw [ih (i + 1)]
      apply List.map_congr_left
      intro j _
      simp only [Function.comp_apply]
      congr 1
      omega

theorem storeInputsLoop_words :
    ∀ (args : List (Nat × Future)) (res : List Int)
      (ivm : List (Nat × MValue)) (icm : List (Nat × Nat)),
      (storeInputsLoop args res ivm icm).1 =
        res ++ (args.map fun a => a.2.argWords).flatten := by
  intro args
  induction args with
  | nil => intro res ivm icm; simp [storeInputsLoop]
  | cons a t ih =>
      intro res ivm icm
      simp [storeInputsLoop, ih, List.append_assoc]

/-! Signlessness of synthesised types. -/

theorem elemOfDType_signless {dt : DTypeId} {e : ElemType}
    (h : elemOfDType dt = .ok e) : e.isSignlessB = true := by
  cases dt <;> simp [elemOfDType] at h <;> simp [← h, ElemType.isSignlessB]

theorem getTType_signless {dtype : DTypeId}
    {gShape lhShape ownShape rhShape : List Int} {device : String}
    {team : Nat} {lOffs : List Nat} {t : PTensorType}
    (h : getTType dtype gShape lhShape ownShape rhShape device team lOffs =
      .ok t) : t.elem.isSignlessB = true := by
  unfold getTType at h
  rcases he : elemOfDType dtype with e | etyp
  · rw [he] at h; simp at h
  · rw [he] at h
    dsimp only at h
    have hs := elemOfDType_signless he
    split_ifs at h <;> (injection h with h; rw [← h]; exact hs)

theorem futureType_signless {f : Future} {t : PTensorType}
    (h : futureType f = .ok t) : t.elem.isSignlessB = true :=
  getTType_signless h

theorem argsOK_funcArgs_signless {st : DMState} (hok : argsOK st) :
    ∀ t ∈ st.funcArgs, t.elem.isSignlessB = true := by
  intro t ht
  have hmem : Except.ok t ∈ st.funcArgs.map (Except.ok (ε := JitError)) :=
    List.mem_map_of_mem _ ht
  rw [← hok] at hmem
  obtain ⟨a, _, ha⟩ := List.mem_map.mp hmem
  exact futureType_signless ha

/-! Self-description of delivery events: every event of a successful
`deliverLoop` run is exactly the `deliverStep` decoding at its own
guid, callback and start position. -/

theorem deliverLoop_events_step (icm : List (Nat × Nat))
    (irm : List (Nat × Nat × Bool)) (output : List Int) :
    ∀ (l : List (Nat × MValue)) (pos : Nat) (evs : List DeliveryEvent),
      deliverLoop icm irm output l pos = .ok evs →
      ∀ e ∈ evs, e = (deliverStep irm output e.guid e.cb e.startPos).1 := by
  intro l
  induction l with
  | nil =>
      intro pos evs hok e he
      simp only [deliverLoop] at hok
      injection hok with hok
      subst hok
      simp at he
  | cons p t ih =>
      intro pos evs hok e he
      obtain ⟨g, v⟩ := p
      rcases hcb : lookupKey g icm with _ | cb
      · simp [deliverLoop, hcb] at hok
      simp only [deliverLoop, hcb] at hok
      rcases hrec : deliverLoop icm irm output t (deliverStep irm output g cb pos).2
        with _ | rest
      · rw [hrec] at hok; exact absurd hok (by simp)
      · rw [hrec] at hok
        injection hok with hok
        subst hok
        rcases List.mem_cons.mp he with he | he
        · subst he
          obtain ⟨h1, h2, _, _, h5⟩ := deliverStep_fields irm output g cb pos
          rw [h1, h2, h5]
        · exact ih _ rest hrec e he

theorem deliverStep_payload_local (irm : List (Nat × Nat × Bool))
    (output : List Int) (g cb pos : Nat)
    (h : ¬(0 < (irmLookup irm g).1 ∧ (irmLookup irm g).2 = true)) :
    (deliverStep irm output g cb pos).1.payload =
      .localArr (getMR (irmLookup irm g).1 (output.drop pos)) := by
  simp [deliverStep, h]

theorem deliverStep_payload_dist (irm : List (Nat × Nat × Bool))
    (output : List Int) (g cb pos : Nat)
    (h : 0 < (irmLookup irm g).1 ∧ (irmLookup irm g).2 = true) :
    (deliverStep irm output g cb pos).1.payload =
      .distArr (getMR (irmLookup irm g).1 (output.drop pos))
        (getMR (irmLookup irm g).1
          (output.drop (pos + memref_sz (irmLookup irm g).1)))
        (getMR (irmLookup irm g).1
          (output.drop (pos + 2 * memref_sz (irmLookup irm g).1)))
        ((output.drop (pos + 3 * memref_sz (irmLookup irm g).1)).getD 0 0)
        ((output.drop (pos + 3 * memref_sz (irmLookup irm g).1)).getD 1 0 +
          (output.drop (pos + 3 * memref_sz (irmLookup irm g).1)).getD 2 0) := by
  simp [deliverStep, h]

theorem makeSignlessType_signless :
    ∀ t : MlirType, (makeSignlessType t).isSignlessB = true := by
  intro t
  induction t with
  | shaped shape elem ih => simpa [makeSignlessType, MlirType.isSignlessB] using ih
  | int w s =>
      by_cases hs : s = .signless <;>
        simp [makeSignlessType, MlirType.isSignlessB, hs]
  | other => rfl

/-! ## Claim theorems -/

/-- C3: `handleResult` walks `ivm` in insertion order; for each entry it
appends the value to the return-value list, inserts its type into the
function signature at the matching result index, records
`(rank, is_distributed)` in `irm`, and accumulates
`ptensor_sz(rank, is_distributed)`; the reported output-buffer size is
exactly twice the accumulated total. -/
theorem claim_C3_handle_result (ivm : List (Nat × MValue)) :
    (handleResult ivm).retValues = ivm.map Prod.snd ∧
    (handleResult ivm).resultTypes = ivm.map (fun p => p.2.typ) ∧
    (handleResult ivm).irm =
      ivm.map (fun p => (p.1, ptRank p.2.typ, isDistT p.2.typ)) ∧
    (handleResult ivm).size2 =
      2 * (ivm.map fun p =>
        ptensor_sz (ptRank p.2.typ) (isDistT p.2.typ)).sum := by
  refine ⟨?_, ?_, ?_, ?_⟩ <;> simp [handleResult, hrLoop_spec]

/-- C6: every supported dtype maps to the signless IR type of matching
width (INT64/UINT64 to i64, INT32/UINT32 to i32, INT16/UINT16 to i16,
INT8/UINT8 to i8, BOOL to i1, FLOAT32 to f32, FLOAT64 to f64); a dtype
tag outside the closed set fails with UnknownDtype; every type
synthesised by `getTType` has a signless element; every argument type of
a reachable function signature is signless; and `makeSignlessType` never
produces a signed or unsigned integer. -/
theorem claim_C6_signless_lowering :
    (elemOfDType .INT64 = .ok (.int 64 .signless) ∧
     elemOfDType .UINT64 = .ok (.int 64 .signless) ∧
     elemOfDType .INT32 = .ok (.int 32 .signless) ∧
     elemOfDType .UINT32 = .ok (.int 32 .signless) ∧
     elemOfDType .INT16 = .ok (.int 16 .signless) ∧
     elemOfDType .UINT16 = .ok (.int 16 .signless) ∧
     elemOfDType .INT8 = .ok (.int 8 .signless) ∧
     elemOfDType .UINT8 = .ok (.int 8 .signless) ∧
     elemOfDType .BOOL = .ok (.int 1 .signless) ∧
     elemOfDType .FLOAT32 = .ok .f32 ∧
     elemOfDType .FLOAT64 = .ok .f64) ∧
    elemOfDType .DTYPE_LAST = .error .UnknownDtype ∧
    (∀ (dtype : DTypeId) (gShape lhShape ownShape rhShape : List Int)
       (device : String) (team : Nat) (lOffs : List Nat) (t : PTensorType),
      getTType dtype gShape lhShape ownShape rhShape device team lOffs =
        .ok t → t.elem.isSignlessB = true) ∧
    (∀ (reg : Registry) (ops : List DMOp) (r : DMState × Registry),
      runOps initDM reg ops = .ok r →
      ∀ t ∈ r.1.funcArgs, t.elem.isSignlessB = true) ∧
    (∀ t : MlirType, (makeSignlessType t).isSignlessB = true) := by
  refine ⟨?_, rfl, ?_, ?_, makeSignlessType_signless⟩
  · exact ⟨rfl, rfl, rfl, rfl, rfl, rfl, rfl, rfl, rfl, rfl, rfl⟩
  · intro dtype gShape lhShape ownShape rhShape device team lOffs t h
    exact getTType_signless h
  · intro reg ops r h
    exact argsOK_funcArgs_signless (argsOK_runOps argsOK_init h)

/-- Witness for C6 at a concrete input: a UINT32 rank-1 future type
synthesis yields the signless i32 element. -/
theorem claim_C6_witness :
    getTType .UINT32 [5] [0] [5] [0] "" 0 [] =
      .ok ⟨[5], .int 32 .signless, []⟩ ∧
    (⟨[5], .int 32 .signless, []⟩ : PTensorType).elem.isSignlessB = true :=
  ⟨rfl, claim_C6_signless_lowering.2.2.1 .UINT32 [5] [0] [5] [0] "" 0 []
    ⟨[5], .int 32 .signless, []⟩ rfl⟩

/-- C7: `drop(guid)` removes exactly that guid's entries from `ivm`,
`icm` and `icr` and deletes it from the Registry; every other guid's
entries are unchanged, `args` and the function signature are untouched,
and the Registry removal happens even when the guid is not in `ivm`. -/
theorem claim_C7_drop (reg : Registry) (st : DMState) (guid : Nat) :
    lookupKey guid (drop reg st guid).1.ivm = none ∧
    lookupKey guid (drop reg st guid).1.icm = none ∧
    lookupKey guid (drop reg st guid).1.icr = none ∧
    lookupKey guid (drop reg st guid).2 = none ∧
    (∀ g', g' ≠ guid →
      lookupKey g' (drop reg st guid).1.ivm = lookupKey g' st.ivm ∧
      lookupKey g' (drop reg st guid).1.icm = lookupKey g' st.icm ∧
      lookupKey g' (drop reg st guid).1.icr = lookupKey g' st.icr ∧
      lookupKey g' (drop reg st guid).2 = lookupKey g' reg) ∧
    (drop reg st guid).1.args = st.args ∧
    (drop reg st guid).1.funcArgs = st.funcArgs ∧
    (lookupKey guid st.ivm = none →
      (drop reg st guid).2 = eraseKey guid reg) := by
  refine ⟨lookupKey_eraseKey_self guid st.ivm,
    lookupKey_eraseKey_self guid st.icm,
    lookupKey_eraseKey_self guid st.icr,
    lookupKey_eraseKey_self guid reg, ?_, rfl, rfl, fun _ => rfl⟩
  intro g' hne
  exact ⟨lookupKey_eraseKey_ne hne st.ivm, lookupKey_eraseKey_ne hne st.icm,
    lookupKey_eraseKey_ne hne st.icr, lookupKey_eraseKey_ne hne reg⟩

/-- Witness for C7 at a concrete input: dropping guid 5 — which is not
in `ivm` of a fresh manager — still removes it from the Registry. -/
theorem claim_C7_witness :
    lookupKey 5
      (drop [(5, ⟨.INT64, [], none, [], none, [], "", 0, []⟩)] initDM 5).2 =
      none :=
  (claim_C7_drop [(5, ⟨.INT64, [], none, [], none, [], "", 0, []⟩)]
    initDM 5).2.2.2.1

/-- C8: `add_value` on a guid already in `ivm` is an InvariantViolation;
on a fresh guid it records the value and delivery callback so that a
subsequent `get_dependent` resolves to exactly this value without
synthesising an argument or appending to `args`. -/
theorem claim_C8_add_value (reg : Registry) (st : DMState) (guid : Nat)
    (v : MValue) (cb : Nat) :
    (∀ w, lookupKey guid st.ivm = some w →
      addVal st guid v cb = .error .InvariantViolation) ∧
    (lookupKey guid st.ivm = none →
      ∃ st', addVal st guid v cb = .ok st' ∧
        lookupKey guid st'.ivm = some v ∧
        lookupKey guid st'.icm = some cb ∧
        getDependent reg st' guid = .ok (v, st') ∧
        st'.args = st.args ∧ st'.funcArgs = st.funcArgs) := by
  constructor
  · intro w hw
    simp [addVal, hw]
  · intro h
    refine ⟨{ st with ivm := setKey guid v st.ivm,
                      icm := setKey guid cb st.icm }, ?_, ?_, ?_, ?_, rfl, rfl⟩
    · simp [addVal, h]
    · exact lookupKey_setKey_self guid v st.ivm
    · exact lookupKey_setKey_self guid cb st.icm
    · exact getDependent_mem_spec reg _ (lookupKey_setKey_self guid v st.ivm)

/-- Witness for C8 at a concrete input: adding a value for guid 3 to a
fresh manager succeeds and a second `add_value` for guid 3 aborts. -/
theorem claim_C8_witness :
    lookupKey 3 initDM.ivm = none ∧
    (∃ st', addVal initDM 3 ⟨⟨[], .int 64 .signless, []⟩, 0⟩ 9 = .ok st' ∧
      lookupKey 3 st'.ivm = some ⟨⟨[], .int 64 .signless, []⟩, 0⟩ ∧
      lookupKey 3 st'.icm = some 9 ∧
      getDependent [] st' 3 = .ok (⟨⟨[], .int 64 .signless, []⟩, 0⟩, st') ∧
      st'.args = initDM.args ∧ st'.funcArgs = initDM.funcArgs) :=
  ⟨rfl, (claim_C8_add_value [] initDM 3 ⟨⟨[], .int 64 .signless, []⟩, 0⟩ 9).2 rfl⟩

/-- C10: all three creation front-ends store `mkTeam(team)` — 1 when a
team was requested and the transceiver has more than one rank, 0
otherwise — in the deferred node, so on a single-rank run every created
array is non-distributed no matter what team was requested. -/
theorem claim_C10_creation_team (nranks team : Nat) (shape : List Nat)
    (dtype : DTypeId) (start stop step num : Nat) (endpoint : Bool) :
    (Creator.full nranks shape dtype team).team = mkTeam nranks team ∧
    (Creator.arange nranks start stop step dtype team).team =
      mkTeam nranks team ∧
    (Creator.linspace nranks num endpoint dtype team).team =
      mkTeam nranks team ∧
    mkTeam nranks team = (if team ≠ 0 ∧ 1 < nranks then 1 else 0) ∧
    (nranks ≤ 1 →
      (Creator.full nranks shape dtype team).team = 0 ∧
      (Creator.arange nranks start stop step dtype team).team = 0 ∧
      (Creator.linspace nranks num endpoint dtype team).team = 0) := by
  refine ⟨rfl, rfl, rfl, rfl, ?_⟩
  intro h
  have hm : mkTeam nranks team = 0 := by
    have : ¬(team ≠ 0 ∧ 1 < nranks) := by omega
    simp [mkTeam, this]
  exact ⟨hm, hm, hm⟩

/-- Witness for C10 at a concrete input: on a single-rank run, a `full`
with requested team 1 stores team 0. -/
theorem claim_C10_witness :
    (Creator.full 1 [10] .INT64 1).team = 0 ∧
    (Creator.arange 1 0 10 1 .INT64 1).team = 0 ∧
    (Creator.linspace 1 10 true .INT64 1).team = 0 :=
  (claim_C10_creation_team 1 1 [10] .INT64 0 10 1 10 true).2.2.2.2
    (by omega)

/-- C9: the packed argument vector starts with the address of the
output-buffer pointer exactly when the reported output size is
non-zero, followed by one address per input-pointer storage slot in
`store_inputs` order (the flat concatenation of the argument futures'
descriptor words, in `args` order); the output buffer returned to the
caller holds exactly the reported number of words. -/
theorem claim_C9_packed_invocation (st : DMState) (osz : Nat) :
    ((jitRunArgs osz (store_inputs st).1).head? = some ArgSlot.outPtr ↔
      osz ≠ 0) ∧
    (jitRunArgs osz (store_inputs st).1).drop (if osz ≠ 0 then 1 else 0) =
      (List.range (store_inputs st).1.length).map ArgSlot.inSlot ∧
    (store_inputs st).1 = (st.args.map fun a => a.2.argWords).flatten ∧
    (jitRunOut osz).length = osz := by
  refine ⟨?_, ?_, ?_, ?_⟩
  · by_cases h : osz = 0
    · subst h
      simp only [jitRunArgs, ne_eq, not_true_eq_false, if_false,
        List.nil_append]
      constructor
      · intro hh
        rcases hinp : (store_inputs st).1 with _ | ⟨x, t⟩ <;>
          rw [hinp] at hh <;> simp [packInputs] at hh
      · intro hh
        exact hh.elim
    · simp [jitRunArgs, h]
  · by_cases h : osz = 0 <;>
      simp [jitRunArgs, h, packInputs_eq]
  · simp [store_inputs, storeInputsLoop_words]
  · simp [jitRunOut]

/-- Witness for C9 at a concrete input: with two imported arguments of
3 and 1 descriptor words, the input part of the packed vector has one
slot per word in order, the head is the output pointer for a non-zero
output size, and the output buffer has the reported length. -/
theorem claim_C9_witness :
    ((jitRunArgs 6 (store_inputs
        { initDM with args :=
            [(1, ⟨.INT64, [], none, [], none, [], "", 0, [10, 20, 30]⟩),
             (2, ⟨.INT64, [], none, [], none, [], "", 0, [40]⟩)] }).1).head? =
      some ArgSlot.outPtr ↔ (6 : Nat) ≠ 0) ∧
    (store_inputs
        { initDM with args :=
            [(1, ⟨.INT64, [], none, [], none, [], "", 0, [10, 20, 30]⟩),
             (2, ⟨.INT64, [], none, [], none, [], "", 0, [40]⟩)] }).1 =
      [10, 20, 30, 40] ∧
    (jitRunOut 6).length = 6 := by
  refine ⟨(claim_C9_packed_invocation _ 6).1, ?_, (claim_C9_packed_invocation
    { initDM with args :=
        [(1, ⟨.INT64, [], none, [], none, [], "", 0, [10, 20, 30]⟩),
         (2, ⟨.INT64, [], none, [], none, [], "", 0, [40]⟩)] } 6).2.2.2⟩
  exact ((claim_C9_packed_invocation
    { initDM with args :=
        [(1, ⟨.INT64, [], none, [], none, [], "", 0, [10, 20, 30]⟩),
         (2, ⟨.INT64, [], none, [], none, [], "", 0, [40]⟩)] } 6).2.2.1).trans
    (by rfl)

/-- C2: in a successful `deliver` walk starting at position 0 of the
flat output buffer, the i-th invocation starts exactly at the sum of
`ptensor_sz(rank, is_dist)` over its predecessors — each result
consumes exactly `ptensor_sz` words; a distributed non-0-rank result is
decoded as three memrefs (left halo, local data, right halo) followed
by the rank-1 local-offsets words, anything else as a single memref
`[allocated, aligned, offset, sizes, strides]`; and the word counts are
`memref_sz(R) = 3 + 2R`, `ptensor_sz(R, d) = 3*memref_sz(R) +
memref_sz(1)` for distributed `R > 0`, else `memref_sz(R)`. -/
theorem claim_C2_roundtrip_size (icm : List (Nat × Nat))
    (irm : List (Nat × Nat × Bool)) (output : List Int)
    (l : List (Nat × MValue)) (evs : List DeliveryEvent) :
    (deliverLoop icm irm output l 0 = .ok evs →
      (∀ i e, evs.get? i = some e →
        e.startPos =
          ((evs.take i).map fun x => ptensor_sz x.rank x.isDist).sum) ∧
      (∀ e ∈ evs,
        (0 < e.rank ∧ e.isDist = true →
          e.payload = .distArr (getMR e.rank (output.drop e.startPos))
            (getMR e.rank (output.drop (e.startPos + memref_sz e.rank)))
            (getMR e.rank (output.drop (e.startPos + 2 * memref_sz e.rank)))
            ((output.drop (e.startPos + 3 * memref_sz e.rank)).getD 0 0)
            ((output.drop (e.startPos + 3 * memref_sz e.rank)).getD 1 0 +
              (output.drop (e.startPos + 3 * memref_sz e.rank)).getD 2 0)) ∧
        (¬(0 < e.rank ∧ e.isDist = true) →
          e.payload = .localArr (getMR e.rank (output.drop e.startPos))))) ∧
    (∀ rank isDist, ptensor_sz rank isDist =
      if 0 < rank ∧ isDist = true then 3 * memref_sz rank + memref_sz 1
      else memref_sz rank) ∧
    (∀ rank, memref_sz rank = 3 + 2 * rank) := by
  refine ⟨?_, fun rank isDist => rfl, fun rank => rfl⟩
  intro h
  constructor
  · intro i e hget
    have := deliverLoop_startPos icm irm output l 0 evs h i e hget
    simpa using this
  · intro e he
    have hself := deliverLoop_events_step icm irm output l 0 evs h e he
    obtain ⟨_, _, h3, h4, _⟩ :=
      deliverStep_fields irm output e.guid e.cb e.startPos
    have hrank : e.rank = (irmLookup irm e.guid).1 := by
      conv_lhs => rw [hself]
      exact h3
    have hdist : e.isDist = (irmLookup irm e.guid).2 := by
      conv_lhs => rw [hself]
      exact h4
    have hpay : e.payload =
        (deliverStep irm output e.guid e.cb e.startPos).1.payload := by
      conv_lhs => rw [hself]
    constructor
    · intro hd
      rw [hrank, hdist] at hd
      rw [hpay, hrank, deliverStep_payload_dist irm output e.guid e.cb
        e.startPos hd]
    · intro hd
      rw [hrank, hdist] at hd
      rw [hpay, hrank, deliverStep_payload_local irm output e.guid e.cb
        e.startPos hd]

/-- Witness for C2 at a concrete input: two results, a distributed
rank-1 one (consuming `3*memref_sz(1) + memref_sz(1) = 20` words) and a
0-rank one starting exactly at position 20. -/
theorem claim_C2_witness :
    deliverLoop [(1, 7), (2, 8)] [(1, (1, true)), (2, (0, false))] []
        [(1, ⟨⟨[], .int 64 .signless, []⟩, 0⟩),
         (2, ⟨⟨[], .int 64 .signless, []⟩, 1⟩)] 0 =
      .ok [⟨1, 7, 1, true, 0,
             .distArr ⟨0, 0, 0, [], []⟩ ⟨0, 0, 0, [], []⟩ ⟨0, 0, 0, [], []⟩
               0 0⟩,
           ⟨2, 8, 0, false, 20, .localArr ⟨0, 0, 0, [], []⟩⟩] ∧
    (⟨2, 8, 0, false, 20, .localArr ⟨0, 0, 0, [], []⟩⟩ :
        DeliveryEvent).startPos =
      ((([⟨1, 7, 1, true, 0,
            .distArr ⟨0, 0, 0, [], []⟩ ⟨0, 0, 0, [], []⟩ ⟨0, 0, 0, [], []⟩
              0 0⟩,
          ⟨2, 8, 0, false, 20, .localArr ⟨0, 0, 0, [], []⟩⟩] :
            List DeliveryEvent).take 1).map
        fun x => ptensor_sz x.rank x.isDist).sum :=
  ⟨rfl,
    ((claim_C2_roundtrip_size [(1, 7), (2, 8)]
        [(1, (1, true)), (2, (0, false))] []
        [(1, ⟨⟨[], .int 64 .signless, []⟩, 0⟩),
         (2, ⟨⟨[], .int 64 .signless, []⟩, 1⟩)]
        [⟨1, 7, 1, true, 0,
            .distArr ⟨0, 0, 0, [], []⟩ ⟨0, 0, 0, [], []⟩ ⟨0, 0, 0, [], []⟩
              0 0⟩,
          ⟨2, 8, 0, false, 20, .localArr ⟨0, 0, 0, [], []⟩⟩]).1 rfl).1 1 _
      rfl⟩

/-- C4: `get_dependent` returns the recorded value unchanged when the
guid is in `ivm`; otherwise it resolves the guid through the Registry,
synthesises exactly one new function argument at position
`args.size() - 1` of the signature, appends exactly one `(guid, future)`
pair to `args`, records the argument value in `ivm` and returns it; a
second call with the same guid returns the same value without adding
another argument; a guid absent from both `ivm` and the Registry fails
with MissingDependency. -/
theorem claim_C4_get_dependent (reg : Registry) (st : DMState) (guid : Nat) :
    (∀ v, lookupKey guid st.ivm = some v →
      getDependent reg st guid = .ok (v, st)) ∧
    (∀ fut typ, lookupKey guid st.ivm = none →
      lookupKey guid reg = some fut → futureType fut = .ok typ →
      ∃ val st', getDependent reg st guid = .ok (val, st') ∧
        val = ⟨typ, st.nextVid⟩ ∧
        st'.args = st.args ++ [(guid, fut)] ∧
        st'.args.length = st.args.length + 1 ∧
        st'.funcArgs = st.funcArgs.insertIdx (st'.args.length - 1) typ ∧
        st'.ivm = st.ivm ++ [(guid, val)] ∧
        st'.icm = st.icm ∧ st'.icr = st.icr ∧
        (argsOK st → st'.funcArgs = st.funcArgs ++ [typ]) ∧
        getDependent reg st' guid = .ok (val, st')) ∧
    (lookupKey guid st.ivm = none → lookupKey guid reg = none →
      getDependent reg st guid = .error .MissingDependency) := by
  refine ⟨?_, ?_, ?_⟩
  · intro v hv
    exact getDependent_mem_spec reg st hv
  · intro fut typ hivm hreg htyp
    refine ⟨⟨typ, st.nextVid⟩,
      { st with
        funcArgs := st.funcArgs.insertIdx st.args.length typ
        args := st.args ++ [(guid, fut)]
        ivm := st.ivm ++ [(guid, ⟨typ, st.nextVid⟩)]
        nextVid := st.nextVid + 1 },
      getDependent_new_spec reg st hivm hreg htyp, rfl, rfl, by simp, by simp,
      rfl, rfl, rfl, ?_, ?_⟩
    · intro hok
      have hlen : st.args.length = st.funcArgs.length := argsOK_length hok
      simp [hlen, List.insertIdx_length_self]
    · refine getDependent_mem_spec reg _ ?_
      show lookupKey guid (st.ivm ++ [(guid, ⟨typ, st.nextVid⟩)]) = _
      rw [lookupKey_append_of_none hivm]
      simp [lookupKey]
  · intro hivm hreg
    exact getDependent_missing_spec reg st hivm hreg

/-- Witness for C4 at a concrete input: importing guid 7 from a
one-entry Registry into a fresh manager synthesises one argument, and
the second call is idempotent. -/
theorem claim_C4_witness :
    ∃ val st',
      getDependent [(7, ⟨.INT64, [], none, [], none, [], "", 0, []⟩)]
          initDM 7 = .ok (val, st') ∧
      val = ⟨⟨[], .int 64 .signless, []⟩, 0⟩ ∧
      st'.args = initDM.args ++
        [(7, ⟨.INT64, [], none, [], none, [], "", 0, []⟩)] ∧
      st'.args.length = initDM.args.length + 1 ∧
      st'.funcArgs = initDM.funcArgs.insertIdx (st'.args.length - 1)
        ⟨[], .int 64 .signless, []⟩ ∧
      st'.ivm = initDM.ivm ++ [(7, val)] ∧
      st'.icm = initDM.icm ∧ st'.icr = initDM.icr ∧
      (argsOK initDM → st'.funcArgs = initDM.funcArgs ++
        [⟨[], .int 64 .signless, []⟩]) ∧
      getDependent [(7, ⟨.INT64, [], none, [], none, [], "", 0, []⟩)]
        st' 7 = .ok (val, st') :=
  (claim_C4_get_dependent [(7, ⟨.INT64, [], none, [], none, [], "", 0, []⟩)]
    initDM 7).2.1 ⟨.INT64, [], none, [], none, [], "", 0, []⟩
    ⟨[], .int 64 .signless, []⟩ rfl rfl rfl

/-- C5: with the cache enabled, the key is the sha1 digest of the
module's pre-lowering text; a hit reuses the stored engine without
calling `createExecutionEngine` and changes nothing, a miss builds and
stores a new engine; entries are never evicted; rerunning the same text
reuses the engine just obtained; equal digests behave identically; and
under well-formedness two texts with different digests never share an
engine. -/
theorem claim_C5_cache (sha1 : String → Nat) (c : JitCache) (t t2 : String) :
    (∀ e0, lookupKey (sha1 t) c.entries = some e0 →
      jitRunCached sha1 c t = (c, e0, false)) ∧
    (lookupKey (sha1 t) c.entries = none →
      jitRunCached sha1 c t =
        (⟨c.entries ++ [(sha1 t, c.nextEngine)], c.nextEngine + 1⟩,
          c.nextEngine, true)) ∧
    (∀ p ∈ c.entries, p ∈ (jitRunCached sha1 c t).1.entries) ∧
    (jitRunCached sha1 (jitRunCached sha1 c t).1 t =
      ((jitRunCached sha1 c t).1, (jitRunCached sha1 c t).2.1, false)) ∧
    (sha1 t = sha1 t2 → jitRunCached sha1 c t2 = jitRunCached sha1 c t) ∧
    (cacheWF c → cacheWF (jitRunCached sha1 c t).1) ∧
    (cacheWF c → sha1 t ≠ sha1 t2 →
      (jitRunCached sha1 (jitRunCached sha1 c t).1 t2).2.1 ≠
        (jitRunCached sha1 c t).2.1) := by
  refine ⟨fun e0 h => jitRunCached_hit h, fun h => jitRunCached_miss h,
    jitRunCached_monotone sha1 c t,
    jitRunCached_hit (jitRunCached_lookup_after sha1 c t),
    ?_, fun hwf => cacheWF_preserved t hwf, ?_⟩
  · intro h
    simp [jitRunCached, h]
  · intro hwf hne
    have hwf1 : cacheWF (jitRunCached sha1 c t).1 := cacheWF_preserved t hwf
    have hl1 : lookupKey (sha1 t) (jitRunCached sha1 c t).1.entries =
        some (jitRunCached sha1 c t).2.1 := jitRunCached_lookup_after sha1 c t
    have hm1 : (sha1 t, (jitRunCached sha1 c t).2.1) ∈
        (jitRunCached sha1 c t).1.entries := lookupKey_mem hl1
    rcases h2 : lookupKey (sha1 t2) (jitRunCached sha1 c t).1.entries
      with _ | e2
    · rw [jitRunCached_miss h2]
      exact Ne.symm (Nat.ne_of_lt (hwf1.1 _ hm1))
    · rw [jitRunCached_hit h2]
      exact lookupKey_values_ne hwf1.2 (lookupKey_mem h2) hm1 (Ne.symm hne)

/-- Witness for C5 at a concrete input: from an empty cache, the text
"ab" builds engine 0; rerunning "ab" reuses it without building; the
text "abc" (different digest under the length digest) gets a distinct
engine. -/
theorem claim_C5_witness :
    jitRunCached String.length
        (jitRunCached String.length ⟨[], 0⟩ "ab").1 "ab" =
      ((jitRunCached String.length ⟨[], 0⟩ "ab").1,
        (jitRunCached String.length ⟨[], 0⟩ "ab").2.1, false) ∧
    (jitRunCached String.length
        (jitRunCached String.length ⟨[], 0⟩ "ab").1 "abc").2.1 ≠
      (jitRunCached String.length ⟨[], 0⟩ "ab").2.1 :=
  ⟨(claim_C5_cache String.length ⟨[], 0⟩ "ab" "abc").2.2.2.1,
    (claim_C5_cache String.length ⟨[], 0⟩ "ab" "abc").2.2.2.2.2.2
      (by constructor
          · intro p hp
            exact absurd hp (List.not_mem_nil p)
          · exact List.nodup_nil)
      (by decide)⟩

/-- C1: the order of declared function arguments equals the insertion
order into `args`; the return values built by `handleResult` equal
`ivm` in insertion order, with the guids recorded in `irm` in that same
order; and `deliver` walks `ivm` in exactly that order, so the i-th
result is decoded for the i-th guid whose `(rank, is_distributed)` pair
`handleResult` recorded in `irm`. -/
theorem claim_C1_stable_order :
    (∀ (reg : Registry) (ops : List DMOp) (r : DMState × Registry),
      runOps initDM reg ops = .ok r → argsOK r.1) ∧
    (∀ ivm : List (Nat × MValue),
      (handleResult ivm).retValues = ivm.map Prod.snd ∧
      (handleResult ivm).irm.map Prod.fst = ivm.map Prod.fst) ∧
    (∀ (st : DMState) (output : List Int),
      (st.ivm.map Prod.fst).Nodup →
      (∀ g ∈ st.ivm.map Prod.fst, (lookupKey g st.icm).isSome) →
      ∃ evs ready,
        deliver st (handleResult st.ivm).irm output = .ok (evs, ready) ∧
        evs.map (fun e => (e.guid, e.rank, e.isDist)) =
          (handleResult st.ivm).irm) := by
  refine ⟨?_, ?_, ?_⟩
  · intro reg ops r h
    exact argsOK_runOps argsOK_init h
  · intro ivm
    constructor
    · simp [handleResult, hrLoop_spec]
    · simp [handleResult, hrLoop_spec]
  · intro st output hnd hcov
    obtain ⟨evs, hok, hmap⟩ :=
      deliverLoop_ok st.icm (handleResult st.ivm).irm output st.ivm 0 hcov
    refine ⟨evs,
      st.icr.foldr (fun p acc => p.2.map (fun cb => (cb, p.1)) ++ acc) [],
      ?_, ?_⟩
    · unfold deliver
      rw [hok]
    · rw [hmap]
      conv_rhs => rw [handleResult_irm]
      apply List.map_congr_left
      intro p hp
      obtain ⟨g, v⟩ := p
      rw [handleResult_irm_lookup hnd hp]

/-- Witness for C1 at a concrete input: a two-result manager state (a
0-rank local value and a distributed rank-1 value) delivers its two
results in `ivm` order with the recorded `(rank, is_distributed)`
pairs. -/
theorem claim_C1_witness :
    (({ initDM with
        ivm := [(1, ⟨⟨[], .int 64 .signless, []⟩, 0⟩),
                (2, ⟨⟨[4], .int 32 .signless, [.distEnvRank 1 1]⟩, 1⟩)],
        icm := [(1, 5), (2, 6)] } : DMState).ivm.map Prod.fst).Nodup ∧
    (∃ evs ready,
      deliver { initDM with
          ivm := [(1, ⟨⟨[], .int 64 .signless, []⟩, 0⟩),
                  (2, ⟨⟨[4], .int 32 .signless, [.distEnvRank 1 1]⟩, 1⟩)],
          icm := [(1, 5), (2, 6)] }
        (handleResult ({ initDM with
          ivm := [(1, ⟨⟨[], .int 64 .signless, []⟩, 0⟩),
                  (2, ⟨⟨[4], .int 32 .signless, [.distEnvRank 1 1]⟩, 1⟩)],
          icm := [(1, 5), (2, 6)] } : DMState).ivm).irm [] = .ok (evs, ready) ∧
      evs.map (fun e => (e.guid, e.rank, e.isDist)) =
        (handleResult ({ initDM with
          ivm := [(1, ⟨⟨[], .int 64 .signless, []⟩, 0⟩),
                  (2, ⟨⟨[4], .int 32 .signless, [.distEnvRank 1 1]⟩, 1⟩)],
          icm := [(1, 5), (2, 6)] } : DMState).ivm).irm) :=
  ⟨by decide,
    claim_C1_stable_order.2.2
      { initDM with
        ivm := [(1, ⟨⟨[], .int 64 .signless, []⟩, 0⟩),
                (2, ⟨⟨[4], .int 32 .signless, [.distEnvRank 1 1]⟩, 1⟩)],
        icm := [(1, 5), (2, 6)] } [] (by decide) (by decide)⟩

end DDPT
